import Mathlib

/-!
# Verification of the Hasaki crawler against its specification

Shallow embedding of the crawler's core control flow:
* `make_request` — the fetch client's retry loop (`HasakiAPIClient._make_request`),
* `reviewLoop` / `get_product_reviews` — the paginated review walk with the
  declared-total ceiling, consecutive-failure tolerance and `max_pages` safety
  ceiling (`HasakiAPIClient.get_product_reviews`),
* `listingWalk` — the unbounded listing-page walk
  (`HasakiAPIClient.get_product_ids_from_category`),
* `parse_category_hierarchy` — leaf-category flattening
  (`ListingCrawler._parse_category_hierarchy`),
* `batchResult` / `batch_insert_products` — the three-tier batch persistence
  (`ListingCrawler._batch_insert_products`),
* `crawl_product` / `crawl_all` — the incremental orchestrator
  (`HasakiCrawler._crawl_product` / `HasakiCrawler.crawl_all`).

HTTP fetches, database calls and JSON payloads are abstracted into oracle
functions passed as parameters; a soft fetch failure (`_make_request`
returning `None`) is `Option.none`.
-/

/-! ## Review pages and the review walk (`HasakiAPIClient.get_product_reviews`)

A successful review fetch is summarised by the fields the walk inspects:
the extracted `reviews` array (entries abstracted to `Nat`) and the declared
`total`.  `data.get("data", {})` being a non-dict collapses to
`reviews = []`, `total = 0`, which this representation also covers. -/

structure ReviewPage where
  reviews : List Nat
  total : Nat
deriving DecidableEq, Repr

/-- Python truthiness test `calculated_max_pages and page > calculated_max_pages`:
`None` and `0` are falsy. -/
def pageExceeds : Option Nat → Nat → Bool
  | none, _ => false
  | some m, p => m != 0 && m < p

/-- One loop of `get_product_reviews`: `fuel` is the number of page indices
left below the `max_pages` ceiling (`fuel = max_pages + 1 - page`), `page` the
current page, `cf` the consecutive-failure counter, `cmp` the calculated
max-page ceiling (`None` until page 1 succeeds with a positive total). -/
def reviewLoop (fetch : Nat → Option ReviewPage) :
    Nat → Nat → Nat → Option Nat → List (ReviewPage × Nat)
  | 0, _, _, _ => []
  | fuel + 1, page, cf, cmp =>
    match fetch page with
    | none =>
      if 3 ≤ cf + 1 then []
      else reviewLoop fetch fuel (page + 1) (cf + 1) cmp
    | some pr =>
      let cmp' := if page = 1 ∧ 0 < pr.total then some ((pr.total + 5 - 1) / 5) else cmp
      if pr.reviews = [] then []
      else if pageExceeds cmp' page then []
      else (pr, page) :: reviewLoop fetch fuel (page + 1) 0 cmp'

/-- Embedding of `HasakiAPIClient.get_product_reviews`: sequential walk from page 1 with
consecutive-failure counter 0 and no calculated ceiling; the result pairs each
collected page payload with its page number. -/
def get_product_reviews (fetch : Nat → Option ReviewPage) (maxPages : Nat := 50) :
    List (ReviewPage × Nat) :=
  reviewLoop fetch maxPages 1 0 none

/-- The review walk as the spec's totals-based bound describes it when no
declared-total ceiling is ever established: bounded only by an empty page,
three consecutive soft failures, or the `max_pages` fuel.  Used to compare the
source walk against the spec's description for fetch sequences whose first
page soft-fails or declares `total = 0`. -/
def reviewLoopNoCeiling (fetch : Nat → Option ReviewPage) :
    Nat → Nat → Nat → List (ReviewPage × Nat)
  | 0, _, _ => []
  | fuel + 1, page, cf =>
    match fetch page with
    | none =>
      if 3 ≤ cf + 1 then []
      else reviewLoopNoCeiling fetch fuel (page + 1) (cf + 1)
    | some pr =>
      if pr.reviews = [] then []
      else (pr, page) :: reviewLoopNoCeiling fetch fuel (page + 1) 0

/-- Oracle of the claim's `T = 12` example: pages 1–4 all succeed with the same
non-empty payload declaring `total = 12` (page 4 is identical to page 3), later
pages soft-fail. -/
def fetchTwelveTotal : Nat → Option ReviewPage := fun p =>
  if p ≤ 4 then some ⟨[1], 12⟩ else none

/-- Oracle with soft failures on pages 2 and 3 and a success on page 4:
page 1 declares `total = 30` (6 expected pages), pages 4–6 succeed, pages from
7 on soft-fail. -/
def fetchBreakStreak : Nat → Option ReviewPage := fun p =>
  if p = 2 ∨ p = 3 then none
  else if p ≤ 6 then some ⟨[p], 30⟩ else none

/-- Oracle whose page 1 succeeds and all later pages soft-fail, producing a
streak of 3 consecutive failures on pages 2–4. -/
def fetchStreak : Nat → Option ReviewPage := fun p =>
  if p = 1 then some ⟨[0], 30⟩ else none

lemma pageExceeds_some_eq_false_iff (m p : Nat) :
    pageExceeds (some m) p = false ↔ (m = 0 ∨ p ≤ m) := by
  simp only [pageExceeds, Bool.and_eq_false_iff, bne_eq_false_iff_eq,
    decide_eq_false_iff_not]
  omega

lemma reviewLoop_page_le_ceiling (fetch : Nat → Option ReviewPage) (m : Nat)
    (hm : 0 < m) :
    ∀ fuel page cf, 2 ≤ page →
      ∀ pr p, (pr, p) ∈ reviewLoop fetch fuel page cf (some m) → p ≤ m := by
  intro fuel
  induction fuel with
  | zero =>
    intro page cf hpage pr p hmem
    simp [reviewLoop] at hmem
  | succ fuel ih =>
    intro page cf hpage pr p hmem
    simp only [reviewLoop] at hmem
    cases hfetch : fetch page with
    | none =>
      rw [hfetch] at hmem
      by_cases h3 : 3 ≤ cf + 1
      · simp [h3] at hmem
      · simp only [if_neg h3] at hmem
        exact ih (page + 1) (cf + 1) (by omega) pr p hmem
    | some pr' =>
      rw [hfetch] at hmem
      have hpage1 : ¬ (page = 1 ∧ 0 < pr'.total) := by
        rintro ⟨h1, _⟩; omega
      simp only [if_neg hpage1] at hmem
      by_cases hemp : pr'.reviews = []
      · simp [hemp] at hmem
      · simp only [if_neg hemp] at hmem
        by_cases hex : pageExceeds (some m) page = true
        · simp [hex] at hmem
        · simp only [Bool.not_eq_true] at hex
          simp only [hex, Bool.false_eq_true, if_false, List.mem_cons] at hmem
          rcases hmem with heq | hmem
          · have hp : p = page := congrArg Prod.snd heq
            rw [pageExceeds_some_eq_false_iff] at hex
            omega
          · exact ih (page + 1) 0 (by omega) pr p hmem

/-- C1: when page 1 of a review walk succeeds and declares a positive total
`T`, the walk's ceiling is `⌈T/5⌉` and no returned tuple carries a page number
beyond it, whatever later fetches return. -/
theorem get_product_reviews_respects_declared_total (fetch : Nat → Option ReviewPage)
    (maxPages : Nat) (pr1 : ReviewPage) (h1 : fetch 1 = some pr1)
    (hT : 0 < pr1.total) :
    ∀ pr p, (pr, p) ∈ get_product_reviews fetch maxPages →
      p ≤ (pr1.total + 5 - 1) / 5 := by
  have hm : 0 < (pr1.total + 5 - 1) / 5 :=
    (Nat.le_div_iff_mul_le (by norm_num)).2 (by omega)
  intro pr p hmem
  unfold get_product_reviews at hmem
  cases maxPages with
  | zero => simp [reviewLoop] at hmem
  | succ fuel =>
    simp only [reviewLoop, h1, true_and, if_pos hT] at hmem
    by_cases hemp : pr1.reviews = []
    · simp [hemp] at hmem
    · simp only [if_neg hemp] at hmem
      have hex : pageExceeds (some ((pr1.total + 5 - 1) / 5)) 1 = false := by
        rw [pageExceeds_some_eq_false_iff]
        omega
      simp only [hex, Bool.false_eq_true, if_false, List.mem_cons] at hmem
      rcases hmem with heq | hmem
      · have : p = 1 := congrArg Prod.snd heq
        omega
      · exact reviewLoop_page_le_ceiling fetch _ hm fuel 2 0 (by omega) pr p hmem

/-- Witness for C1: with `T = 12` (ceiling 3) the non-empty page 4 — identical
to page 3 — is not in the result. -/
theorem get_product_reviews_respects_declared_total_witness :
    ((⟨[1], 12⟩ : ReviewPage), 4) ∉ get_product_reviews fetchTwelveTotal 50 := by
  intro hmem
  have h := get_product_reviews_respects_declared_total fetchTwelveTotal 50
    ⟨[1], 12⟩ rfl (by decide) ⟨[1], 12⟩ 4 hmem
  exact absurd h (by decide)

/-- C2: the consecutive-soft-failure counter of the review walk.  A soft
failure below the threshold increments the counter and advances to the next
page; the third consecutive failure stops the walk, returning only the pages
already collected; a success continues the walk with the counter reset to
zero.  Concretely, failures on pages 2 and 3 followed by a success on page 4
do not end the walk (pages 1, 4, 5, 6 are returned), while a streak of three
failures after page 1 returns just page 1. -/
theorem reviewLoop_failure_counter (fetch : Nat → Option ReviewPage)
    (fuel page cf : Nat) (cmp : Option Nat) :
    (fetch page = none → cf + 1 < 3 →
      reviewLoop fetch (fuel + 1) page cf cmp =
        reviewLoop fetch fuel (page + 1) (cf + 1) cmp)
    ∧ (fetch page = none → 3 ≤ cf + 1 →
      reviewLoop fetch (fuel + 1) page cf cmp = [])
    ∧ (∀ pr, fetch page = some pr → pr.reviews ≠ [] →
        pageExceeds
          (if page = 1 ∧ 0 < pr.total then some ((pr.total + 5 - 1) / 5) else cmp)
          page = false →
        reviewLoop fetch (fuel + 1) page cf cmp =
          (pr, page) :: reviewLoop fetch fuel (page + 1) 0
            (if page = 1 ∧ 0 < pr.total then some ((pr.total + 5 - 1) / 5) else cmp))
    ∧ (get_product_reviews fetchBreakStreak 50).map Prod.snd = [1, 4, 5, 6]
    ∧ (get_product_reviews fetchStreak 50).map Prod.snd = [1] := by
  refine ⟨?_, ?_, ?_, by decide, by decide⟩
  · intro h hlt
    simp only [reviewLoop, h]
    rw [if_neg (by omega)]
  · intro h hge
    simp only [reviewLoop, h]
    rw [if_pos hge]
  · intro pr h hne hex
    simp only [reviewLoop, h]
    rw [if_neg hne]
    simp only [hex, Bool.false_eq_true, if_false]

/-- Witness for C2 at concrete inputs: a failure at page 2 with counter 0
advances to page 3 with counter 1; a failure at page 4 with counter 2 stops
the walk; a success at page 1 continues with the counter reset to zero. -/
theorem reviewLoop_failure_counter_witness :
    reviewLoop fetchStreak 49 2 0 (some 6) = reviewLoop fetchStreak 48 3 1 (some 6)
    ∧ reviewLoop fetchStreak 47 4 2 (some 6) = []
    ∧ reviewLoop fetchStreak 50 1 0 none =
        (⟨[0], 30⟩, 1) :: reviewLoop fetchStreak 49 2 0 (some 6) := by
  refine ⟨?_, ?_, ?_⟩
  · exact (reviewLoop_failure_counter fetchStreak 48 2 0 (some 6)).1 rfl (by omega)
  · exact (reviewLoop_failure_counter fetchStreak 46 4 2 (some 6)).2.1 rfl (by omega)
  · have h := (reviewLoop_failure_counter fetchStreak 49 1 0 none).2.2.1
      ⟨[0], 30⟩ rfl (by decide) (by decide)
    simpa using h

lemma reviewLoop_page_lt_add (fetch : Nat → Option ReviewPage) :
    ∀ fuel page cf cmp pr p,
      (pr, p) ∈ reviewLoop fetch fuel page cf cmp → p < page + fuel := by
  intro fuel
  induction fuel with
  | zero =>
    intro page cf cmp pr p hmem
    simp [reviewLoop] at hmem
  | succ fuel ih =>
    intro page cf cmp pr p hmem
    simp only [reviewLoop] at hmem
    cases hfetch : fetch page with
    | none =>
      rw [hfetch] at hmem
      by_cases h3 : 3 ≤ cf + 1
      · simp [h3] at hmem
      · simp only [if_neg h3] at hmem
        have := ih (page + 1) (cf + 1) cmp pr p hmem
        omega
    | some pr' =>
      rw [hfetch] at hmem
      by_cases hemp : pr'.reviews = []
      · simp [hemp] at hmem
      · simp only [if_neg hemp] at hmem
        by_cases hc : page = 1 ∧ 0 < pr'.total
        · rw [if_pos hc] at hmem
          split at hmem
          · exact absurd hmem (List.not_mem_nil _)
          · rcases List.mem_cons.mp hmem with heq | hmem
            · have : p = page := congrArg Prod.snd heq
              omega
            · have := ih (page + 1) 0 _ pr p hmem
              omega
        · rw [if_neg hc] at hmem
          split at hmem
          · exact absurd hmem (List.not_mem_nil _)
          · rcases List.mem_cons.mp hmem with heq | hmem
            · have : p = page := congrArg Prod.snd heq
              omega
            · have := ih (page + 1) 0 _ pr p hmem
              omega

lemma reviewLoop_congr (fetch fetch' : Nat → Option ReviewPage) :
    ∀ fuel page cf cmp,
      (∀ q, page ≤ q → q < page + fuel → fetch q = fetch' q) →
      reviewLoop fetch fuel page cf cmp = reviewLoop fetch' fuel page cf cmp := by
  intro fuel
  induction fuel with
  | zero => intro page cf cmp _; simp [reviewLoop]
  | succ fuel ih =>
    intro page cf cmp hagree
    have hpage : fetch page = fetch' page := hagree page le_rfl (by omega)
    have htail : ∀ q, page + 1 ≤ q → q < page + 1 + fuel → fetch q = fetch' q :=
      fun q h1 h2 => hagree q (by omega) (by omega)
    simp only [reviewLoop, hpage]
    cases hf : fetch' page with
    | none =>
      by_cases h3 : 3 ≤ cf + 1
      · simp [h3]
      · simp only [if_neg h3]
        exact ih (page + 1) (cf + 1) cmp htail
    | some pr =>
      by_cases hemp : pr.reviews = []
      · simp [hemp]
      · simp only [if_neg hemp]
        by_cases hc : page = 1 ∧ 0 < pr.total
        · rw [if_pos hc]
          split
          · rfl
          · rw [ih (page + 1) 0 _ htail]
        · rw [if_neg hc]
          split
          · rfl
          · rw [ih (page + 1) 0 _ htail]

/-- C8: the `max_pages` safety ceiling (default 50).  Every tuple returned by
the review walk has page number at most `maxPages`, and the walk never
consults the fetch oracle beyond `maxPages`: its result only depends on the
oracle's values on pages `1..maxPages`. -/
theorem get_product_reviews_max_pages_ceiling (fetch : Nat → Option ReviewPage)
    (maxPages : Nat) :
    (∀ pr p, (pr, p) ∈ get_product_reviews fetch maxPages → p ≤ maxPages)
    ∧ (∀ fetch', (∀ q, 1 ≤ q → q ≤ maxPages → fetch q = fetch' q) →
        get_product_reviews fetch maxPages = get_product_reviews fetch' maxPages) := by
  constructor
  · intro pr p hmem
    have := reviewLoop_page_lt_add fetch maxPages 1 0 none pr p hmem
    omega
  · intro fetch' hagree
    exact reviewLoop_congr fetch fetch' maxPages 1 0 none
      (fun q h1 h2 => hagree q h1 (by omega))

/-- Oracle agreeing with `fetchStreak` on page 1 only; beyond the ceiling it
returns non-empty pages where `fetchStreak` soft-fails. -/
def fetchAgreeLow : Nat → Option ReviewPage := fun p =>
  if p = 1 then some ⟨[0], 30⟩ else some ⟨[7], 7⟩

/-- Witness for C8 at `maxPages = 1`: page 2 is not returned, and the walk's
result is unchanged when every page beyond the ceiling is altered. -/
theorem get_product_reviews_max_pages_ceiling_witness :
    ((⟨[0], 30⟩ : ReviewPage), 2) ∉ get_product_reviews fetchStreak 1
    ∧ get_product_reviews fetchStreak 1 = get_product_reviews fetchAgreeLow 1 := by
  constructor
  · intro hmem
    have h := (get_product_reviews_max_pages_ceiling fetchStreak 1).1 ⟨[0], 30⟩ 2 hmem
    omega
  · exact (get_product_reviews_max_pages_ceiling fetchStreak 1).2 fetchAgreeLow
      (by
        intro q h1 h2
        have : q = 1 := by omega
        subst this
        rfl)

lemma reviewLoop_none_eq_noCeiling (fetch : Nat → Option ReviewPage) :
    ∀ fuel page cf, 2 ≤ page →
      reviewLoop fetch fuel page cf none = reviewLoopNoCeiling fetch fuel page cf := by
  intro fuel
  induction fuel with
  | zero => intro page cf _; simp [reviewLoop, reviewLoopNoCeiling]
  | succ fuel ih =>
    intro page cf hpage
    simp only [reviewLoop, reviewLoopNoCeiling]
    cases hf : fetch page with
    | none =>
      by_cases h3 : 3 ≤ cf + 1
      · simp [h3]
      · simp only [if_neg h3]
        exact ih (page + 1) (cf + 1) (by omega)
    | some pr =>
      have hpage1 : ¬ (page = 1 ∧ 0 < pr.total) := by rintro ⟨h1, _⟩; omega
      simp only [if_neg hpage1]
      by_cases hemp : pr.reviews = []
      · simp [hemp]
      · simp only [if_neg hemp]
        have hex : pageExceeds none page = false := rfl
        simp only [hex, Bool.false_eq_true, if_false]
        rw [ih (page + 1) 0 (by omega)]

/-- C10: when page 1 soft-fails or declares `total = 0`, the walk never
establishes a calculated max-page ceiling — later pages' declared totals are
ignored — so it coincides with the ceiling-free walk, bounded only by an empty
page, three consecutive soft failures, or the `max_pages` fuel. -/
theorem get_product_reviews_no_ceiling_without_page1_total
    (fetch : Nat → Option ReviewPage) (maxPages : Nat)
    (h : fetch 1 = none ∨ ∃ pr, fetch 1 = some pr ∧ pr.total = 0) :
    get_product_reviews fetch maxPages = reviewLoopNoCeiling fetch maxPages 1 0 := by
  unfold get_product_reviews
  cases maxPages with
  | zero => simp [reviewLoop, reviewLoopNoCeiling]
  | succ fuel =>
    rcases h with h1 | ⟨pr, h1, htot⟩
    · simp only [reviewLoop, reviewLoopNoCeiling, h1]
      rw [if_neg (by omega), if_neg (by omega)]
      exact reviewLoop_none_eq_noCeiling fetch fuel 2 1 (by omega)
    · simp only [reviewLoop, reviewLoopNoCeiling, h1, true_and]
      rw [if_neg (show ¬ 0 < pr.total by omega)]
      by_cases hemp : pr.reviews = []
      · simp [hemp]
      · simp only [if_neg hemp]
        have hex : pageExceeds none 1 = false := rfl
        simp only [hex, Bool.false_eq_true, if_false]
        rw [reviewLoop_none_eq_noCeiling fetch fuel 2 0 (by omega)]

/-- Witness for C10: with every fetch soft-failing (page 1 included), the walk
equals the ceiling-free walk. -/
theorem get_product_reviews_no_ceiling_without_page1_total_witness :
    get_product_reviews (fun _ => none) 50 = reviewLoopNoCeiling (fun _ => none) 50 1 0 :=
  get_product_reviews_no_ceiling_without_page1_total (fun _ => none) 50 (Or.inl rfl)

/-! ## The listing walk (`HasakiAPIClient.get_product_ids_from_category`)

A successful listing fetch is summarised by its `listing` item array
(`data.get("listing", [])`, items abstracted to `Nat`); `none` is a soft
fetch failure.  The source walk is an unbounded `while True` loop, embedded
with an explicit iteration budget `fuel`: the claims quantify over sequences
that provably terminate, and any `fuel` larger than the stopping page yields
the loop's result. -/

structure ListingPage where
  listing : List Nat
deriving DecidableEq, Repr

/-- Loop of `HasakiAPIClient.get_product_ids_from_category`: fetch `page`; on a
soft failure or an empty item array stop, otherwise collect the page (paired
with its page number) and continue with `page + 1`. -/
def listingWalk (fetch : Nat → Option ListingPage) : Nat → Nat → List (ListingPage × Nat)
  | 0, _ => []
  | fuel + 1, page =>
    match fetch page with
    | none => []
    | some d =>
      if d.listing = [] then []
      else (d, page) :: listingWalk fetch fuel (page + 1)

/-- Embedding of `HasakiAPIClient.get_product_ids_from_category`: the walk starts at page 1. -/
def get_product_ids_from_category (fetch : Nat → Option ListingPage) (fuel : Nat) :
    List (ListingPage × Nat) :=
  listingWalk fetch fuel 1

lemma listingWalk_exact (fetch : Nat → Option ListingPage) :
    ∀ n fuel page,
      (∀ p, page ≤ p → p < page + n → ∃ d, fetch p = some d ∧ d.listing ≠ []) →
      (∃ d, fetch (page + n) = some d ∧ d.listing = []) →
      n < fuel →
      (listingWalk fetch fuel page).map Prod.snd = List.range' page n
      ∧ ∀ x ∈ listingWalk fetch fuel page, fetch x.2 = some x.1 := by
  intro n
  induction n with
  | zero =>
    intro fuel page _ hempty hlt
    obtain ⟨d, hd, hde⟩ := hempty
    rw [Nat.add_zero] at hd
    cases fuel with
    | zero => omega
    | succ fuel =>
      simp only [listingWalk, hd, if_pos hde]
      simp
  | succ n ih =>
    intro fuel page hsucc hempty hlt
    obtain ⟨d, hd, hde⟩ := hsucc page le_rfl (by omega)
    cases fuel with
    | zero => omega
    | succ fuel =>
      simp only [listingWalk, hd, if_neg hde]
      have htail := ih fuel (page + 1)
        (fun p h1 h2 => hsucc p (by omega) (by omega))
        (by
          obtain ⟨d', hd', hde'⟩ := hempty
          exact ⟨d', by rw [show page + 1 + n = page + (n + 1) by omega]; exact hd', hde'⟩)
        (by omega)
      constructor
      · rw [List.map_cons, htail.1, List.range'_succ]
      · intro x hx
        rcases List.mem_cons.mp hx with heq | hx
        · rw [heq]; exact hd
        · exact htail.2 x hx

/-- C7: when pages `1..k` all succeed with non-empty item arrays and page
`k + 1` succeeds with an empty item array, the walk (run with any sufficient
iteration budget) returns exactly pages `1..k` in increasing order — each
paired with its fetched payload — and the empty page itself is excluded. -/
theorem get_product_ids_from_category_stops_at_first_empty
    (fetch : Nat → Option ListingPage) (k fuel : Nat) (hfuel : k < fuel)
    (hsucc : ∀ p, 1 ≤ p → p ≤ k → ∃ d, fetch p = some d ∧ d.listing ≠ [])
    (hempty : ∃ d, fetch (k + 1) = some d ∧ d.listing = []) :
    (get_product_ids_from_category fetch fuel).map Prod.snd = List.range' 1 k
    ∧ ∀ x ∈ get_product_ids_from_category fetch fuel, fetch x.2 = some x.1 := by
  unfold get_product_ids_from_category
  exact listingWalk_exact fetch k fuel 1
    (fun p h1 h2 => hsucc p h1 (by omega))
    (by rw [show 1 + k = k + 1 by omega]; exact hempty)
    hfuel

/-- Listing oracle: non-empty pages 1 and 2, an empty page 3, failures after. -/
def fetchListingEx : Nat → Option ListingPage := fun p =>
  if p ≤ 2 then some ⟨[p]⟩ else if p = 3 then some ⟨[]⟩ else none

/-- Witness for C7: with non-empty pages 1–2 and an empty page 3, the walk
returns exactly pages 1 and 2. -/
theorem get_product_ids_from_category_stops_at_first_empty_witness :
    (get_product_ids_from_category fetchListingEx 10).map Prod.snd = [1, 2] := by
  have h := get_product_ids_from_category_stops_at_first_empty fetchListingEx 2 10
    (by omega)
    (by
      intro p h1 h2
      have hp : p = 1 ∨ p = 2 := by omega
      rcases hp with hp | hp <;> (subst hp; exact ⟨_, rfl, by decide⟩))
    ⟨⟨[]⟩, rfl, rfl⟩
  simpa using h.1

/-! ## The fetch client's retry loop (`HasakiAPIClient._make_request`)

An attempt's outcome: a successful 2xx response with a JSON payload
(abstracted to `Nat`), an HTTP error status (`response.raise_for_status()`
raises `requests.exceptions.HTTPError`, a `RequestException`), or a
connection/socket-level failure (`OSError` / `ConnectionError` / other
`RequestException`s).  The `except` clause catches all of these. -/

inductive Attempt where
  | success (data : Nat)
  | httpError (status : Nat)
  | connError
deriving DecidableEq, Repr

/-- An attempt that enters the `except` clause (anything but a success). -/
def attemptFails : Attempt → Bool
  | .success _ => false
  | _ => true

/-- The retry loop of `_make_request` over the oracle `att` of per-attempt
outcomes: at most 3 attempts (`fuel` counts the attempts left, `i` is the
current 0-based attempt index); any caught exception retries after sleeping
`0.05 * (attempt + 1)` seconds (modelled as milliseconds in the returned sleep
trace); exhaustion returns the soft failure `none` instead of raising. -/
def make_request_go (att : Nat → Attempt) : Nat → Nat → Option Nat × List Nat
  | 0, _ => (none, [])
  | fuel + 1, i =>
    match att i with
    | .success d => (some d, [])
    | _ =>
      if fuel = 0 then (none, [])
      else
        let r := make_request_go att fuel (i + 1)
        (r.1, (50 * (i + 1)) :: r.2)

/-- Embedding of `HasakiAPIClient._make_request`: `max_retries = 3`, starting at attempt 0.
Returns the payload of the first successful attempt (or `none`) together with
the sleep durations performed between attempts. -/
def make_request (att : Nat → Attempt) : Option Nat × List Nat :=
  make_request_go att 3 0

/-- The retry policy exactly as C3 words it, for comparison with
`make_request`: retry only on connection/socket-level failures; an HTTP error
status is not retried. -/
def make_request_claim_policy_go (att : Nat → Attempt) : Nat → Nat → Option Nat × List Nat
  | 0, _ => (none, [])
  | fuel + 1, i =>
    match att i with
    | .success d => (some d, [])
    | .httpError _ => (none, [])
    | .connError =>
      if fuel = 0 then (none, [])
      else
        let r := make_request_claim_policy_go att fuel (i + 1)
        (r.1, (50 * (i + 1)) :: r.2)

/-- C3's claimed policy applied with `max_retries = 3` from attempt 0. -/
def make_request_claim_policy (att : Nat → Attempt) : Option Nat × List Nat :=
  make_request_claim_policy_go att 3 0

/-- Attempt oracle whose first attempt ends in an HTTP error status and whose
second attempt succeeds. -/
def cexAttempts : Nat → Attempt := fun i =>
  if i = 0 then .httpError 500 else .success 7

/-- Counterexample to C3 as stated: after an HTTP error status on attempt 0
the code retries (sleeping 50 ms) and returns the second attempt's payload,
whereas the claimed connection-failures-only policy would stop with the soft
failure immediately. -/
theorem make_request_retries_on_http_error_counterexample :
    make_request cexAttempts = (some 7, [50])
    ∧ make_request_claim_policy cexAttempts = (none, []) := by
  constructor <;> rfl

/-- C3 (amended): `_make_request` makes up to 3 immediate attempts, retrying
after any caught request exception — connection/socket-level failures and HTTP
error statuses alike, since `raise_for_status` turns an HTTP error status into
a `RequestException` caught by the retry loop — sleeping
`attempt_index × 50 ms` between attempts, and returning the soft-failure value
`none` rather than raising when all 3 attempts fail. -/
theorem make_request_retry_behavior (att : Nat → Attempt) :
    (∀ d, att 0 = .success d → make_request att = (some d, []))
    ∧ (∀ d, attemptFails (att 0) = true → att 1 = .success d →
        make_request att = (some d, [50]))
    ∧ (∀ d, attemptFails (att 0) = true → attemptFails (att 1) = true →
        att 2 = .success d → make_request att = (some d, [50, 100]))
    ∧ (attemptFails (att 0) = true → attemptFails (att 1) = true →
        attemptFails (att 2) = true → make_request att = (none, [50, 100])) := by
  refine ⟨?_, ?_, ?_, ?_⟩
  · intro d h0
    simp [make_request, make_request_go, h0]
  · intro d h0 h1
    cases ha : att 0 with
    | success d' => rw [ha] at h0; simp [attemptFails] at h0
    | httpError s => simp [make_request, make_request_go, ha, h1]
    | connError => simp [make_request, make_request_go, ha, h1]
  · intro d h0 h1 h2
    cases ha : att 0 with
    | success d' => rw [ha] at h0; simp [attemptFails] at h0
    | httpError s =>
      cases hb : att 1 with
      | success d' => rw [hb] at h1; simp [attemptFails] at h1
      | httpError s' => simp [make_request, make_request_go, ha, hb, h2]
      | connError => simp [make_request, make_request_go, ha, hb, h2]
    | connError =>
      cases hb : att 1 with
      | success d' => rw [hb] at h1; simp [attemptFails] at h1
      | httpError s' => simp [make_request, make_request_go, ha, hb, h2]
      | connError => simp [make_request, make_request_go, ha, hb, h2]
  · intro h0 h1 h2
    cases ha : att 0 with
    | success d' => rw [ha] at h0; simp [attemptFails] at h0
    | httpError s =>
      cases hb : att 1 with
      | success d' => rw [hb] at h1; simp [attemptFails] at h1
      | httpError s' =>
        cases hc : att 2 with
        | success d' => rw [hc] at h2; simp [attemptFails] at h2
        | httpError s'' => simp [make_request, make_request_go, ha, hb, hc]
        | connError => simp [make_request, make_request_go, ha, hb, hc]
      | connError =>
        cases hc : att 2 with
        | success d' => rw [hc] at h2; simp [attemptFails] at h2
        | httpError s'' => simp [make_request, make_request_go, ha, hb, hc]
        | connError => simp [make_request, make_request_go, ha, hb, hc]
    | connError =>
      cases hb : att 1 with
      | success d' => rw [hb] at h1; simp [attemptFails] at h1
      | httpError s' =>
        cases hc : att 2 with
        | success d' => rw [hc] at h2; simp [attemptFails] at h2
        | httpError s'' => simp [make_request, make_request_go, ha, hb, hc]
        | connError => simp [make_request, make_request_go, ha, hb, hc]
      | connError =>
        cases hc : att 2 with
        | success d' => rw [hc] at h2; simp [attemptFails] at h2
        | httpError s'' => simp [make_request, make_request_go, ha, hb, hc]
        | connError => simp [make_request, make_request_go, ha, hb, hc]

/-- Witness for C3 (amended): three consecutive connection failures yield the
soft failure `none` after sleeping 50 ms and 100 ms. -/
theorem make_request_retry_behavior_witness :
    make_request (fun _ => .connError) = (none, [50, 100]) :=
  (make_request_retry_behavior (fun _ => .connError)).2.2.2 rfl rfl rfl

/-! ## Leaf-category flattening (`ListingCrawler._parse_category_hierarchy`)

A category node carries an optional `id` (absent key or JSON `null` is
`none`; Python treats `0` as falsy too), a `name`, and an optional `child`
value: `none` models both a missing `"child"` key and a non-list value, and
`some l` a list of children. -/

inductive Cat where
  | node (id : Option Nat) (name : String) (child : Option (List Cat)) : Cat

/-- Python truthiness of `cat.get("id")`. -/
def catTruthyId : Option Nat → Bool
  | some n => n != 0
  | none => false

/-- Value `int(cat_id)` of a truthy id (unused on falsy ids). -/
def idVal : Option Nat → Nat
  | some n => n
  | none => 0

/-- The record appended for a leaf: `{"id": int(cat_id), "name": cat.get("name", "")}`. -/
structure LeafCat where
  id : Nat
  name : String
deriving DecidableEq, Repr

/-- Embedding of `ListingCrawler._parse_category_hierarchy` (its `traverse`): for each node
with a truthy id, recurse into `child` when it is a non-empty list and
otherwise record the node as a leaf; a node with a falsy or missing id is
skipped entirely, subtree included. -/
def parse_category_hierarchy : List Cat → List LeafCat
  | [] => []
  | Cat.node id name child :: rest =>
    (if catTruthyId id then
      match child with
      | some (c :: cs) => parse_category_hierarchy (c :: cs)
      | _ => [⟨idVal id, name⟩]
    else []) ++ parse_category_hierarchy rest

/-- The flattening as C4 words it: return exactly the leaf nodes (missing
`child` key, non-list `child`, or empty child list), in depth-first order with
children in the given order and no deduplication — with no condition on ids. -/
def specFlattenLeaves : List Cat → List LeafCat
  | [] => []
  | Cat.node id name child :: rest =>
    (match child with
     | some (c :: cs) => specFlattenLeaves (c :: cs)
     | _ => [⟨idVal id, name⟩]) ++ specFlattenLeaves rest

/-- Number of leaves of a forest, as C4 counts them: a node whose `child` is
missing, a non-list, or an empty list is one leaf, any other node contributes
its children's leaves. -/
def leafCount : List Cat → Nat
  | [] => 0
  | Cat.node _ _ child :: rest =>
    (match child with
     | some (c :: cs) => leafCount (c :: cs)
     | _ => 1) + leafCount rest

/-- Every node of the forest (recursively) carries a truthy id. -/
def allIds : List Cat → Bool
  | [] => true
  | Cat.node id _ child :: rest =>
    (catTruthyId id &&
      (match child with
       | some (c :: cs) => allIds (c :: cs)
       | _ => true)) && allIds rest

/-- Counterexample to C4 as stated: a single childless node with a missing id
is a leaf of the tree, yet the flattening returns the empty list — so the
result is not "exactly the nodes that have no children" and its length differs
from the leaf count. -/
theorem parse_category_hierarchy_drops_idless_leaf_counterexample :
    parse_category_hierarchy [Cat.node none "x" none] = []
    ∧ leafCount [Cat.node none "x" none] = 1
    ∧ specFlattenLeaves [Cat.node none "x" none] = [⟨0, "x"⟩] := by
  refine ⟨?_, ?_, ?_⟩
  · simp [parse_category_hierarchy, catTruthyId]
  · simp [leafCount]
  · simp [specFlattenLeaves, idVal]

/-- C4 (amended): on every category tree whose nodes all carry truthy ids,
the flattening returns exactly the nodes with no children (missing `child`
key, non-list `child`, or empty child list), in depth-first order with
children visited in the given order, without deduplicating equal names, and
its length is the tree's leaf count; a node with a falsy or missing id is
skipped together with its entire subtree. -/
theorem parse_category_hierarchy_flattens_leaves (cats : List Cat)
    (hids : allIds cats = true) :
    parse_category_hierarchy cats = specFlattenLeaves cats
    ∧ (parse_category_hierarchy cats).length = leafCount cats := by
  induction cats using parse_category_hierarchy.induct with
  | case1 => simp [parse_category_hierarchy, specFlattenLeaves, leafCount]
  | case2 id name child rest ihc ihr =>
    cases child with
    | none =>
      simp only [allIds, Bool.and_true, Bool.and_eq_true] at hids
      obtain ⟨hid, hrest⟩ := hids
      have hr := ihr hrest
      simp only [parse_category_hierarchy, specFlattenLeaves, leafCount, if_pos hid]
      refine ⟨by rw [hr.1], ?_⟩
      simp only [List.singleton_append, List.length_cons, hr.2]
      omega
    | some l =>
      cases l with
      | nil =>
        simp only [allIds, Bool.and_true, Bool.and_eq_true] at hids
        obtain ⟨hid, hrest⟩ := hids
        have hr := ihr hrest
        simp only [parse_category_hierarchy, specFlattenLeaves, leafCount, if_pos hid]
        refine ⟨by rw [hr.1], ?_⟩
        simp only [List.singleton_append, List.length_cons, hr.2]
        omega
      | cons c cs =>
        simp only [allIds, Bool.and_eq_true] at hids
        obtain ⟨⟨hid, hchild⟩, hrest⟩ := hids
        have hr := ihr hrest
        have hc := ihc hchild
        simp only [parse_category_hierarchy, specFlattenLeaves, leafCount, if_pos hid]
        exact ⟨by rw [hc.1, hr.1], by rw [List.length_append, hc.2, hr.2]⟩

/-- A concrete all-ids tree: leaves `b`, `b` (duplicate name, not
deduplicated) and the nested `e`, in depth-first order. -/
def exCatTree : List Cat :=
  [Cat.node (some 1) "a" (some
    [Cat.node (some 2) "b" none,
     Cat.node (some 3) "b" (some []),
     Cat.node (some 4) "d" (some [Cat.node (some 5) "e" none])])]

/-- Witness for C4 (amended) on `exCatTree`: flattening yields the three
leaves in depth-first order and the length matches the leaf count. -/
theorem parse_category_hierarchy_flattens_leaves_witness :
    parse_category_hierarchy exCatTree = [⟨2, "b"⟩, ⟨3, "b"⟩, ⟨5, "e"⟩]
    ∧ leafCount exCatTree = 3 := by
  have h := parse_category_hierarchy_flattens_leaves exCatTree
    (by simp [exCatTree, allIds, catTruthyId])
  constructor
  · rw [h.1]
    simp [exCatTree, specFlattenLeaves, idVal]
  · rw [← h.2, h.1]
    simp [exCatTree, specFlattenLeaves]

/-! ## Three-tier batch persistence (`ListingCrawler._batch_insert_products`)

Product records are `{'product_id': str, 'brand_id': Optional[str]}`.  The
three persistence tiers are oracles returning `Except Unit _`, where
`.error ()` is a raised exception:
* `rpcBatch` — the `batch_insert_listing_api` RPC; on success `result.data`
  is an optional integer count (`None` adds nothing, and does not fall back);
* `tableInsert` — the direct `raw.listing_api` bulk insert; on success
  `result.data` is the list of inserted rows (abstracted to `Nat`);
* `singleInsert` — the per-record `safe_insert_listing_api` RPC; a success
  with non-`None` data counts one insert, its own exceptions are swallowed. -/

structure ProductRef where
  product_id : String
  brand_id : Option String
deriving DecidableEq, Repr

structure InsertEnv where
  rpcBatch : List ProductRef → Except Unit (Option Nat)
  tableInsert : List ProductRef → Except Unit (List Nat)
  singleInsert : ProductRef → Except Unit (Option Nat)

/-- The `products[i:i+batch_size]` slices of the Python `for i in range(0,
len(products), batch_size)` loop.  (Python raises on a zero step; the `n = 0`
branch is never exercised: the source fixes `batch_size = 100`.) -/
def chunkList {α : Type} (n : Nat) : List α → List (List α)
  | [] => []
  | x :: xs =>
    if h : n = 0 then []
    else (x :: xs).take n :: chunkList n ((x :: xs).drop n)
termination_by l => l.length
decreasing_by
  rw [List.length_drop]
  simp only [List.length_cons]
  omega

/-- The per-batch body of `_batch_insert_products`: try the bulk RPC; on its
exception try the direct table insert; on that exception fall back to one
`safe_insert_listing_api` call per record.  Returns the count this batch
contributes to `inserted_count`. -/
def batchResult (env : InsertEnv) (batch : List ProductRef) : Nat :=
  match env.rpcBatch batch with
  | .ok d => d.getD 0
  | .error _ =>
    match env.tableInsert batch with
    | .ok rows => rows.length
    | .error _ =>
      (batch.map (fun p =>
        match env.singleInsert p with
        | .ok (some _) => 1
        | _ => 0)).sum

/-- Embedding of `ListingCrawler._batch_insert_products`: empty input short-circuits to 0,
otherwise the batches' counts are summed. -/
def batch_insert_products (env : InsertEnv) (products : List ProductRef)
    (batchSize : Nat := 100) : Nat :=
  if products = [] then 0
  else ((chunkList batchSize products).map (batchResult env)).sum

lemma chunkList_flatten {α : Type} (n : Nat) (hn : n ≠ 0) (l : List α) :
    (chunkList n l).flatten = l := by
  induction l using chunkList.induct n with
  | case1 => rw [chunkList]; rfl
  | case2 x xs h => exact absurd h hn
  | case3 x xs h ih =>
    rw [chunkList, dif_neg h]
    simp only [List.flatten_cons, ih]
    exact List.take_append_drop n (x :: xs)

lemma chunkList_mem {α : Type} (n : Nat) (l : List α) :
    ∀ b ∈ chunkList n l, b ≠ [] ∧ b.length ≤ n := by
  induction l using chunkList.induct n with
  | case1 => rw [chunkList]; intro b hb; exact absurd hb (List.not_mem_nil b)
  | case2 x xs h => rw [chunkList, dif_pos h]; intro b hb; exact absurd hb (List.not_mem_nil b)
  | case3 x xs h ih =>
    rw [chunkList, dif_neg h]
    intro b hb
    rcases List.mem_cons.mp hb with heq | hb
    · subst heq
      constructor
      · have hlen : 0 < ((x :: xs).take n).length := by
          rw [List.length_take]
          simp only [List.length_cons]
          omega
        exact List.ne_nil_of_length_pos hlen
      · rw [List.length_take]; omega
    · exact ih b hb

lemma batch_insert_products_eq_sum (env : InsertEnv) (products : List ProductRef) :
    batch_insert_products env products 100 =
      ((chunkList 100 products).map (batchResult env)).sum := by
  unfold batch_insert_products
  by_cases h : products = []
  · subst h; rw [if_pos rfl, chunkList]; rfl
  · rw [if_neg h]

/-- C9: the batch-insert routine partitions its input into consecutive
non-empty batches of at most 100 records whose concatenation is the input;
per batch the three persistence tiers are attempted in order — the bulk RPC
first, the direct table insert only on the RPC's exception, per-record calls
only on the table insert's exception — and the routine returns the sum of the
batches' reported inserted counts. -/
theorem batch_insert_products_three_tiers (env : InsertEnv)
    (products batch : List ProductRef) :
    ((chunkList 100 products).flatten = products
      ∧ ∀ b ∈ chunkList 100 products, b ≠ [] ∧ b.length ≤ 100)
    ∧ (∀ d, env.rpcBatch batch = .ok d → batchResult env batch = d.getD 0)
    ∧ (∀ e rows, env.rpcBatch batch = .error e → env.tableInsert batch = .ok rows →
        batchResult env batch = rows.length)
    ∧ (∀ e e', env.rpcBatch batch = .error e → env.tableInsert batch = .error e' →
        batchResult env batch =
          (batch.map (fun p =>
            match env.singleInsert p with
            | .ok (some _) => 1
            | _ => 0)).sum)
    ∧ batch_insert_products env products 100 =
        ((chunkList 100 products).map (batchResult env)).sum := by
  refine ⟨⟨chunkList_flatten 100 (by omega) products, chunkList_mem 100 products⟩,
    ?_, ?_, ?_, batch_insert_products_eq_sum env products⟩
  · intro d hd
    unfold batchResult
    rw [hd]
  · intro e rows he hrows
    unfold batchResult
    rw [he, hrows]
  · intro e e' he he'
    unfold batchResult
    rw [he, he']

/-- Environment for the C9 witness: the bulk RPC always raises, the direct
table insert succeeds with two rows per batch, per-record inserts succeed. -/
def exInsertEnv : InsertEnv where
  rpcBatch := fun _ => .error ()
  tableInsert := fun b => .ok (b.map (fun _ => 0))
  singleInsert := fun _ => .ok (some 1)

/-- Witness for C9: on a two-record input with the bulk RPC raising, the
routine falls back to the table insert and reports its row count. -/
theorem batch_insert_products_three_tiers_witness :
    batchResult exInsertEnv [⟨"1", none⟩, ⟨"2", some "9"⟩] = 2
    ∧ batch_insert_products exInsertEnv [⟨"1", none⟩, ⟨"2", some "9"⟩] 100 =
        ((chunkList 100 [⟨"1", none⟩, ⟨"2", some "9"⟩]).map (batchResult exInsertEnv)).sum := by
  constructor
  · have h := (batch_insert_products_three_tiers exInsertEnv []
      [⟨"1", none⟩, ⟨"2", some "9"⟩]).2.2.1 () [0, 0] rfl rfl
    simpa using h
  · exact (batch_insert_products_three_tiers exInsertEnv
      [⟨"1", none⟩, ⟨"2", some "9"⟩] []).2.2.2.2

/-! ## The incremental orchestrator (`HasakiCrawler.crawl_all` / `_crawl_product`)

The environment holds the loaded brand allow-list, the product-ID universe
returned by `_get_product_ids_from_db`, and oracles for the detail fetch
(`get_product_detail`, `none` = soft failure), the incremental store
(`store_product`, `none` = "no change, skipped"), the historical-snapshot
lookup (`get_latest_product_snapshot_id`) and the review walk's result per
product.  Payloads and snapshot ids are abstracted to `Nat`. -/

structure CrawlEnv where
  brandIds : List Nat
  dbProductIds : List Nat
  getDetail : Nat → Option Nat
  storeProduct : Nat → Nat → Option Nat
  latestSnapshot : Nat → Option Nat
  reviewPages : Nat → List (ReviewPage × Nat)

/-- Python truthiness of an optional snapshot id (`if snapshot_id:`):
`None` and `0` are falsy. -/
def optTruthy : Option Nat → Bool
  | some n => n != 0
  | none => false

def optVal : Option Nat → Nat
  | some n => n
  | none => 0

/-- Embedding of `HasakiCrawler._crawl_product`: fetch the detail; on success store it; if
the store reports "no change" resolve the existing latest snapshot id; if
neither yields a truthy id, warn and record nothing.  Returns the
`crawled_products` entry (if any) and whether the "no existing snapshot"
warning fired (the source's boolean return value only feeds statistics and is
omitted). -/
def crawl_product (env : CrawlEnv) (pid : Nat) : Option (Nat × Nat) × Bool :=
  match env.getDetail pid with
  | none => (none, false)
  | some d =>
    let sid := env.storeProduct pid d
    if optTruthy sid then (some (pid, optVal sid), false)
    else
      let ex := env.latestSnapshot pid
      if optTruthy ex then (some (pid, optVal ex), false)
      else (none, true)

/-- Observable trace of one `crawl_all` run: the `finish_session` status
(`none` when the run returns before a session is finished — the empty-brands
early return), the product ids whose detail was fetched, the
`crawled_products` entries, the product ids whose reviews were fetched, the
`(product_id, snapshot_id)` pairs passed to `store_reviews_for_product`, and
the product ids that hit the "skipped but no existing snapshot" warning. -/
structure RunTrace where
  status : Option String
  detailFetched : List Nat
  crawledProducts : List (Nat × Nat)
  reviewFetched : List Nat
  reviewWrites : List (Nat × Nat)
  warnings : List Nat
deriving DecidableEq, Repr

/-- Embedding of `HasakiCrawler.crawl_all`'s control flow.  Step 1 (home API) is omitted:
its exceptions are caught and it does not influence the later steps.  Steps 3
and 4 run in worker pools; they are embedded sequentially in submission order,
`dbProductIds` standing for `sorted(target_product_ids)` (the claims are
order-independent).  Step 4 runs only over `crawled_products`, and
`store_reviews_for_product` is called only when the review walk returned a
non-empty page list. -/
def crawl_all (env : CrawlEnv) : RunTrace :=
  if env.brandIds = [] then
    ⟨none, [], [], [], [], []⟩
  else if env.dbProductIds = [] then
    ⟨some "failed", [], [], [], [], []⟩
  else
    let results := env.dbProductIds.map (fun pid => (pid, crawl_product env pid))
    let crawled := results.filterMap (fun x => x.2.1)
    let warns := results.filterMap (fun x => if x.2.2 then some x.1 else none)
    let writes := crawled.filterMap (fun e =>
      if env.reviewPages e.1 = [] then none else some e)
    ⟨some "completed", env.dbProductIds, crawled, crawled.map Prod.fst, writes, warns⟩

/-- C5: with a nonempty brand list but an empty loaded product-ID universe,
the run finishes its session with status `failed` and returns before any
product-detail fetch or review fetch is attempted. -/
theorem crawl_all_empty_universe_fails (env : CrawlEnv)
    (hb : env.brandIds ≠ []) (hdb : env.dbProductIds = []) :
    (crawl_all env).status = some "failed"
    ∧ (crawl_all env).detailFetched = []
    ∧ (crawl_all env).reviewFetched = []
    ∧ (crawl_all env).reviewWrites = [] := by
  unfold crawl_all
  rw [if_neg hb, if_pos hdb]
  exact ⟨rfl, rfl, rfl, rfl⟩

/-- Environment with a nonempty brand list and an empty product universe. -/
def exEmptyEnv : CrawlEnv where
  brandIds := [1]
  dbProductIds := []
  getDetail := fun _ => some 0
  storeProduct := fun _ _ => some 1
  latestSnapshot := fun _ => none
  reviewPages := fun _ => []

/-- Witness for C5 on `exEmptyEnv`. -/
theorem crawl_all_empty_universe_fails_witness :
    (crawl_all exEmptyEnv).status = some "failed"
    ∧ (crawl_all exEmptyEnv).detailFetched = []
    ∧ (crawl_all exEmptyEnv).reviewFetched = []
    ∧ (crawl_all exEmptyEnv).reviewWrites = [] :=
  crawl_all_empty_universe_fails exEmptyEnv (by decide) rfl

lemma optTruthy_iff (o : Option Nat) : optTruthy o = true ↔ ∃ n, o = some n ∧ n ≠ 0 := by
  cases o with
  | none => simp [optTruthy]
  | some n => simp [optTruthy]

lemma crawl_product_entry (env : CrawlEnv) (q pid sid : Nat)
    (h : (crawl_product env q).1 = some (pid, sid)) :
    pid = q ∧ sid ≠ 0 ∧ ∃ d, env.getDetail q = some d ∧
      (env.storeProduct q d = some sid ∨
        (optTruthy (env.storeProduct q d) = false ∧
          env.latestSnapshot q = some sid)) := by
  unfold crawl_product at h
  cases hd : env.getDetail q with
  | none => simp [hd] at h
  | some d =>
    simp only [hd] at h
    by_cases h1 : optTruthy (env.storeProduct q d) = true
    · obtain ⟨n, hs, hn⟩ := (optTruthy_iff _).mp h1
      rw [if_pos h1, hs] at h
      simp only [optVal, Option.some.injEq, Prod.mk.injEq] at h
      obtain ⟨hq, hsid⟩ := h
      exact ⟨hq.symm, by omega, d, rfl, Or.inl (by rw [hs, hsid])⟩
    · rw [if_neg h1] at h
      by_cases h2 : optTruthy (env.latestSnapshot q) = true
      · obtain ⟨n, hs, hn⟩ := (optTruthy_iff _).mp h2
        rw [if_pos h2, hs] at h
        simp only [optVal, Option.some.injEq, Prod.mk.injEq] at h
        obtain ⟨hq, hsid⟩ := h
        exact ⟨hq.symm, by omega, d, rfl,
          Or.inr ⟨by simpa using h1, by rw [hs, hsid]⟩⟩
      · rw [if_neg h2] at h
        simp at h

lemma crawl_product_warned_no_entry (env : CrawlEnv) (q : Nat)
    (h : (crawl_product env q).2 = true) : (crawl_product env q).1 = none := by
  unfold crawl_product at h ⊢
  cases hd : env.getDetail q with
  | none => rfl
  | some d =>
    simp only [hd] at h ⊢
    by_cases h1 : optTruthy (env.storeProduct q d) = true
    · rw [if_pos h1] at h; simp at h
    · rw [if_neg h1] at h ⊢
      by_cases h2 : optTruthy (env.latestSnapshot q) = true
      · rw [if_pos h2] at h; simp at h
      · rw [if_neg h2]

/-- C6: every `(product_id, snapshot_id)` pair a review page is written
against carries a known non-null snapshot id, resolved either from this run's
store or — when the store reported "no change" — from the existing latest
snapshot; a product for which neither resolves is warned about and excluded
from the review-crawl phase while the run still completes. -/
theorem crawl_all_review_snapshot_resolution (env : CrawlEnv) :
    (∀ pid sid, (pid, sid) ∈ (crawl_all env).reviewWrites →
      sid ≠ 0 ∧ ∃ d, env.getDetail pid = some d ∧
        (env.storeProduct pid d = some sid ∨
          (optTruthy (env.storeProduct pid d) = false ∧
            env.latestSnapshot pid = some sid)))
    ∧ (∀ pid, pid ∈ (crawl_all env).warnings →
        pid ∉ (crawl_all env).reviewFetched
        ∧ (crawl_all env).status = some "completed") := by
  by_cases hb : env.brandIds = []
  · constructor
    · intro pid sid hmem
      unfold crawl_all at hmem
      rw [if_pos hb] at hmem
      simp at hmem
    · intro pid hmem
      unfold crawl_all at hmem
      rw [if_pos hb] at hmem
      simp at hmem
  · by_cases hdb : env.dbProductIds = []
    · constructor
      · intro pid sid hmem
        unfold crawl_all at hmem
        rw [if_neg hb, if_pos hdb] at hmem
        simp at hmem
      · intro pid hmem
        unfold crawl_all at hmem
        rw [if_neg hb, if_pos hdb] at hmem
        simp at hmem
    · constructor
      · intro pid sid hmem
        unfold crawl_all at hmem
        rw [if_neg hb, if_neg hdb] at hmem
        simp only [List.mem_filterMap, List.mem_map] at hmem
        obtain ⟨e, ⟨x, ⟨q, hq, hx⟩, hentry⟩, hwrite⟩ := hmem
        subst hx
        by_cases hrp : env.reviewPages e.1 = []
        · rw [if_pos hrp] at hwrite; exact absurd hwrite (by simp)
        · rw [if_neg hrp] at hwrite
          have he : e = (pid, sid) := by simpa using hwrite
          subst he
          obtain ⟨hpq, hsid, d, hd, hres⟩ := crawl_product_entry env q pid sid hentry
          subst hpq
          exact ⟨hsid, d, hd, hres⟩
      · intro pid hmem
        refine ⟨?_, by unfold crawl_all; rw [if_neg hb, if_neg hdb]⟩
        intro hfetched
        unfold crawl_all at hmem hfetched
        rw [if_neg hb, if_neg hdb] at hmem hfetched
        simp only [List.mem_filterMap, List.mem_map] at hmem hfetched
        obtain ⟨x, ⟨q, hq, hx⟩, hwarn⟩ := hmem
        subst hx
        by_cases hw : (crawl_product env q).2 = true
        · obtain ⟨e, ⟨x', ⟨q', hq', hx'⟩, hentry⟩, hfst⟩ := hfetched
          subst hx'
          obtain ⟨hpq', _, _⟩ := crawl_product_entry env q' e.1 e.2 (by
            simpa using hentry)
          have hqpid : q = pid := by
            by_cases hcond : (crawl_product env q).2 = true
            · simpa [hcond] using hwarn
            · exact absurd hw hcond
          have hnone := crawl_product_warned_no_entry env q hw
          have : e.1 = pid := hfst
          have hq'pid : q' = pid := by rw [← hpq', this]
          rw [hqpid] at hnone
          rw [hq'pid] at hentry
          rw [hnone] at hentry
          exact absurd hentry (by simp)
        · simp [hw] at hwarn

/-- Environment exercising all three snapshot-resolution outcomes: product 10
stores a fresh snapshot 100, product 11 is skipped ("no change") and resolves
the existing snapshot 200, product 12 is skipped with no snapshot resolvable
(warned, excluded from the review phase). -/
def exCrawlEnv : CrawlEnv where
  brandIds := [1]
  dbProductIds := [10, 11, 12]
  getDetail := fun pid => some pid
  storeProduct := fun pid _ => if pid = 10 then some 100 else none
  latestSnapshot := fun pid => if pid = 11 then some 200 else none
  reviewPages := fun _ => [(⟨[1], 1⟩, 1)]

/-- Witness for C6 on `exCrawlEnv`: the review write for product 10 carries a
non-null snapshot id, and the warned product 12 is excluded from the review
phase of a run that still completes. -/
theorem crawl_all_review_snapshot_resolution_witness :
    (100 : Nat) ≠ 0
    ∧ 12 ∉ (crawl_all exCrawlEnv).reviewFetched
    ∧ (crawl_all exCrawlEnv).status = some "completed" := by
  refine ⟨?_, ?_, ?_⟩
  · exact ((crawl_all_review_snapshot_resolution exCrawlEnv).1 10 100 (by decide)).1
  · exact ((crawl_all_review_snapshot_resolution exCrawlEnv).2 12 (by decide)).1
  · exact ((crawl_all_review_snapshot_resolution exCrawlEnv).2 12 (by decide)).2
